import Mathlib

/-!
Verification of the ZIP decoding core (`src/utils/unzipper.ts`).

The archive is modelled as an immutable byte buffer `Buf` (a list of byte
values).  Node.js `Buffer` primitives are embedded as follows:

* `buf.readUInt16LE(i)` / `buf.readUInt32LE(i)` throw a `RangeError` when the
  read would cross the end of the buffer; they are embedded as `readU16` /
  `readU32` returning `Option Nat` (`none` models the throw).
* `buf[i]` yields `undefined` out of bounds, so a signature byte comparison
  `buf[i] === 0x50` is `b.get? i == some 0x50`.
* `buf.slice(s, e)` and `buf.toString('utf-8', s, e)` clamp both ends to the
  buffer, yielding the bytes in `[s, min e (length))`; embedded as `bufSlice`.
* `buf.indexOf(needle, from)` returns the least position `≥ from` where the
  4-byte local-header signature occurs in full; embedded as `indexOfFrom`.

The central-directory walk of the constructor is embedded with explicit fuel
(`cdLoop`): the `continue` statement on a local-header signature mismatch does
not advance `cdCursor`, so the walk need not terminate, and `none` (fuel
exhausted for every fuel) models that divergence.  The fallback scanner always
terminates but is given the same fuel discipline (`fbLoop`) for uniformity;
any fuel larger than the iteration count (at most `length / 30 + 1`) is enough.

Entry names are kept as raw bytes.  The decoded UTF-8 string ends with the
character `/` iff the byte list ends with `0x2F`: `0x2F` is a single-byte
code point and can never be the trailing byte of a longer UTF-8 sequence,
so `endsWithSlash` faithfully embeds `fileName.endsWith('/')`.

`getData` embeds the closure stored in each entry: method 8 applies the raw
(headerless) inflate primitive `zlib.inflateRawSync`, abstracted as the
function argument `inflateRawSync`; method 0 returns the captured slice; any
other method throws an error carrying the method code, embedded as
`Except.error code`.
-/

set_option maxRecDepth 20000

namespace Unzip

/-- A byte buffer: the contents of the archive file. -/
abbrev Buf := List Nat

/-- `buf.readUInt16LE i` (little-endian, throws out of bounds → `none`). -/
def readU16 (b : Buf) (i : Nat) : Option Nat :=
  if i + 2 ≤ b.length then some (b.getD i 0 + 256 * b.getD (i+1) 0) else none

/-- `buf.readUInt32LE i` (little-endian, throws out of bounds → `none`). -/
def readU32 (b : Buf) (i : Nat) : Option Nat :=
  if i + 4 ≤ b.length then
    some (b.getD i 0 + 256 * b.getD (i+1) 0 + 65536 * b.getD (i+2) 0 +
          16777216 * b.getD (i+3) 0)
  else none

/-- `buf.slice s e` / `buf.toString('utf-8', s, e)`: bytes in `[s, e)`,
both ends clamped to the buffer. -/
def bufSlice (b : Buf) (s e : Nat) : Buf :=
  (b.drop s).take (e - s)

/-- `fileName.endsWith('/')` on the raw name bytes (`/` is `0x2F = 47`). -/
def endsWithSlash (s : Buf) : Bool :=
  s.getLast? == some 47

/-- The End-Of-Central-Directory signature `50 4B 05 06` read at `i` with
`buf[i] === 0x50 && ...` semantics (out-of-bounds bytes compare unequal). -/
def eocdSigAt (b : Buf) (i : Nat) : Bool :=
  (b.get? i == some 0x50) && (b.get? (i+1) == some 0x4B) &&
  (b.get? (i+2) == some 0x05) && (b.get? (i+3) == some 0x06)

/-- Backward scan: checks positions `i, i-1, ..., i-(n-1)` for the EOCD
signature and returns the first (highest) hit. -/
def scanCount (b : Buf) : Nat → Nat → Option Nat
  | _, 0 => none
  | i, n+1 => if eocdSigAt b i then some i else scanCount b (i-1) n

/-- The EOCD locator: `for (let i = length - 22; i >= scanStart; i--)` with
`scanStart = max(0, length - (0xFFFF + 22))`.  When `length < 22` the loop
body never runs (the JS index starts negative). -/
def eocdScan (b : Buf) : Option Nat :=
  if b.length < 22 then none
  else scanCount b (b.length - 22) ((b.length - 22) - (b.length - 65557) + 1)

/-- The local-file-header signature `50 4B 03 04` occurring in full at `p`. -/
def localSigAt (b : Buf) (p : Nat) : Bool :=
  (b.get? p == some 0x50) && (b.get? (p+1) == some 0x4B) &&
  (b.get? (p+2) == some 0x03) && (b.get? (p+3) == some 0x04)

/-- Forward search helper: checks positions `i, i+1, ...` (`k` of them). -/
def sigSearch (b : Buf) : Nat → Nat → Option Nat
  | _, 0 => none
  | i, k+1 => if localSigAt b i then some i else sigSearch b (i+1) k

/-- `buf.indexOf(Buffer.from([0x50,0x4B,0x03,0x04]), start)`: least `p ≥ start`
where the signature occurs in full. -/
def indexOfFrom (b : Buf) (start : Nat) : Option Nat :=
  sigSearch b start (b.length - start)

/-- One parsed archive entry.  `entryName` keeps the raw name bytes;
`method` and `data` are the values captured by the `getData` closure
(`data` is the `compressedData` slice); `viewStart` is the slice's start
offset in the archive (the `byteOffset` of the Node `Buffer` view). -/
structure ZEntry where
  entryName : Buf
  isDirectory : Bool
  method : Nat
  viewStart : Nat
  data : Buf
  deriving DecidableEq, Repr

/-- The only exception the constructor itself can raise: a `RangeError` from
`readUInt16LE` / `readUInt32LE` crossing the end of the buffer. -/
inductive ZipError where
  | rangeError : ZipError
  deriving DecidableEq, Repr

/-- Outcome of examining one central-directory record at the cursor. -/
inductive CdStep where
  /-- a fixed-field read crossed the end of the buffer (`RangeError`). -/
  | err : CdStep
  /-- the record signature is not `50 4B 01 02`: `break` out of the walk. -/
  | stop : CdStep
  /-- the referenced local header is not `50 4B 03 04`: `continue`
  (which does NOT advance the cursor). -/
  | skip : CdStep
  /-- an entry was pushed; the second component is the advanced cursor. -/
  | push : ZEntry → Nat → CdStep
  deriving DecidableEq, Repr

/-- The body of the central-directory `while` loop for the record at cursor
`c` (source lines 41–79). -/
def cdStepF (b : Buf) (c : Nat) : CdStep :=
  match readU32 b c with
  | none => .err
  | some sig =>
    if sig = 0x02014b50 then
      match readU16 b (c+10), readU32 b (c+20), readU32 b (c+24),
            readU16 b (c+28), readU16 b (c+30), readU16 b (c+32),
            readU32 b (c+42) with
      | some compressionMethod, some compressedSize, some _uncompressedSize,
        some fileNameLength, some extraFieldLength, some fileCommentLength,
        some relativeOffset =>
        let fileName := bufSlice b (c+46) (c+46+fileNameLength)
        match readU32 b relativeOffset with
        | none => .err
        | some lsig =>
          if lsig = 0x04034b50 then
            match readU16 b (relativeOffset+26), readU16 b (relativeOffset+28) with
            | some lfFileNameLength, some lfExtraFieldLength =>
              let dataStart := relativeOffset + 30 + lfFileNameLength + lfExtraFieldLength
              .push { entryName := fileName,
                      isDirectory := endsWithSlash fileName,
                      method := compressionMethod,
                      viewStart := dataStart,
                      data := bufSlice b dataStart (dataStart + compressedSize) }
                    (c + 46 + fileNameLength + extraFieldLength + fileCommentLength)
            | _, _ => .err
          else .skip
      | _, _, _, _, _, _, _ => .err
    else .stop

/-- The central-directory walk `while (cdCursor < cdEnd)` with explicit fuel;
`none` means the loop was still running when the fuel ran out. -/
def cdLoop (b : Buf) (cdEnd : Nat) : Nat → Nat → List ZEntry → Option (Except ZipError (List ZEntry))
  | 0, _, _ => none
  | fuel+1, c, acc =>
    if c < cdEnd then
      match cdStepF b c with
      | .err => some (.error .rangeError)
      | .stop => some (.ok acc.reverse)
      | .skip => cdLoop b cdEnd fuel c acc
      | .push e c' => cdLoop b cdEnd fuel c' (e :: acc)
    else some (.ok acc.reverse)

/-- Decoding the local header matched at `p` in fallback mode (source lines
90–119): fields at `p+8, p+18, p+22, p+26, p+28`, name at `p+30`, payload
view `[dataStart, dataStart + compressedSize)`, next cursor
`dataStart + compressedSize`. -/
def fbStep (b : Buf) (p : Nat) : Option (ZEntry × Nat) :=
  match readU16 b (p+8), readU32 b (p+18), readU32 b (p+22),
        readU16 b (p+26), readU16 b (p+28) with
  | some compressionMethod, some compressedSize, some _uncompressedSize,
    some fileNameLength, some extraFieldLength =>
    let fileName := bufSlice b (p+30) (p+30+fileNameLength)
    let dataStart := p + 30 + fileNameLength + extraFieldLength
    some ({ entryName := fileName,
            isDirectory := endsWithSlash fileName,
            method := compressionMethod,
            viewStart := dataStart,
            data := bufSlice b dataStart (dataStart + compressedSize) },
          dataStart + compressedSize)
  | _, _, _, _, _ => none

/-- The fallback scanner `while (currentOffset < fileBuffer.length - 4)` with
explicit fuel.  The JS condition compares against a possibly negative
`length - 4`; for a nonnegative cursor this agrees with the truncated
subtraction used here. -/
def fbLoop (b : Buf) : Nat → Nat → List ZEntry → Option (Except ZipError (List ZEntry))
  | 0, _, _ => none
  | fuel+1, cur, acc =>
    if cur < b.length - 4 then
      match indexOfFrom b cur with
      | none => some (.ok acc.reverse)
      | some p =>
        match fbStep b p with
        | none => some (.error .rangeError)
        | some (e, next) => fbLoop b fuel next (e :: acc)
    else some (.ok acc.reverse)

/-- The whole constructor, after the file has been read into `b`: locate the
EOCD; on success read `cdOffset` (at `pos+16`) and `cdSize` (at `pos+12`) and
walk the directory; otherwise run the fallback scanner. -/
def buildEntries (fuel : Nat) (b : Buf) : Option (Except ZipError (List ZEntry)) :=
  match eocdScan b with
  | some eocdPos =>
    match readU32 b (eocdPos + 16), readU32 b (eocdPos + 12) with
    | some cdOffset, some cdSize => cdLoop b (cdOffset + cdSize) fuel cdOffset []
    | _, _ => some (.error .rangeError)
  | none => fbLoop b fuel 0 []

/-- The `Unzipper` object: it owns the entry list built by the constructor. -/
structure Unzipper where
  entries : List ZEntry
  deriving DecidableEq, Repr

/-- `getEntries()` returns the entry list. -/
def Unzipper.getEntries (u : Unzipper) : List ZEntry :=
  u.entries

/-- `new Unzipper(path)` after reading the file into `b`. -/
def mkUnzipper (fuel : Nat) (b : Buf) : Option (Except ZipError Unzipper) :=
  (buildEntries fuel b).map (Except.map Unzipper.mk)

/-- The `getData` closure of an entry: method 8 → raw-deflate decompression
(`zlib.inflateRawSync`, abstracted as `inflateRawSync`); method 0 → the
captured bytes unchanged; anything else → throw an error carrying the
method code. -/
def getData (inflateRawSync : Buf → Buf) (e : ZEntry) : Except Nat Buf :=
  if e.method = 8 then .ok (inflateRawSync e.data)
  else if e.method = 0 then .ok e.data
  else .error e.method

/-- Entry list of a constructor outcome (empty for a throw or divergence). -/
def entriesOf (r : Option (Except ZipError (List ZEntry))) : List ZEntry :=
  match r with
  | some (Except.ok l) => l
  | _ => []

/-- The (start offset, actual view length) pairs of a constructor outcome. -/
def entryViews (r : Option (Except ZipError (List ZEntry))) : List (Nat × Nat) :=
  (entriesOf r).map (fun e => (e.viewStart, e.data.length))

/-- Entries listed in increasing start-of-view order. -/
def viewLt (a e : ZEntry) : Prop :=
  a.viewStart < e.viewStart

/-- Archive whose first directory record references a local header that does
not begin with `50 4B 03 04` (it references offset 0, four zero bytes), and
whose second directory record is fully valid (it references the intact local
header at offset 4).  EOCD at 126, directory at 34 with size 92. -/
def c1Buf : Buf :=
  [0, 0, 0, 0] ++
  ([0x50, 0x4B, 0x03, 0x04] ++ List.replicate 26 0) ++
  ([0x50, 0x4B, 0x01, 0x02] ++ List.replicate 42 0) ++
  ([0x50, 0x4B, 0x01, 0x02] ++ List.replicate 38 0 ++ [4, 0, 0, 0]) ++
  ([0x50, 0x4B, 0x05, 0x06] ++ List.replicate 8 0 ++
   [92, 0, 0, 0] ++ [34, 0, 0, 0] ++ [0, 0])

/-- Minimal archive with a single directory record whose referenced local
header (offset 0) does not begin with `50 4B 03 04`.  EOCD at 50,
directory at 4 with size 46. -/
def c2Buf : Buf :=
  [0, 0, 0, 0] ++
  ([0x50, 0x4B, 0x01, 0x02] ++ List.replicate 42 0) ++
  ([0x50, 0x4B, 0x05, 0x06] ++ List.replicate 8 0 ++
   [46, 0, 0, 0] ++ [4, 0, 0, 0] ++ [0, 0])

/-- Archive (98 bytes) with one directory record whose compressed-size field
is 100: the claimed payload view `[30, 130)` extends past the end of the
buffer.  Local header at 0, directory at 30 with size 46, EOCD at 76. -/
def c3Buf : Buf :=
  ([0x50, 0x4B, 0x03, 0x04] ++ List.replicate 26 0) ++
  ([0x50, 0x4B, 0x01, 0x02] ++ List.replicate 16 0 ++ [100, 0, 0, 0] ++
   List.replicate 22 0) ++
  ([0x50, 0x4B, 0x05, 0x06] ++ List.replicate 8 0 ++
   [46, 0, 0, 0] ++ [30, 0, 0, 0] ++ [0, 0])

/-- Well-formed one-entry archive (98 bytes): local header at 0, directory at
30 with size 46 (all sizes zero), EOCD at 76. -/
def cdOkBuf : Buf :=
  ([0x50, 0x4B, 0x03, 0x04] ++ List.replicate 26 0) ++
  ([0x50, 0x4B, 0x01, 0x02] ++ List.replicate 42 0) ++
  ([0x50, 0x4B, 0x05, 0x06] ++ List.replicate 8 0 ++
   [46, 0, 0, 0] ++ [30, 0, 0, 0] ++ [0, 0])

/-- Trailer-less archive (31 bytes) with one local header tagged with
compression method 99 and a one-byte name `x`. -/
def buf99 : Buf :=
  [0x50, 0x4B, 0x03, 0x04] ++ [0, 0, 0, 0] ++ [99, 0] ++
  List.replicate 16 0 ++ [1, 0] ++ [0, 0] ++ [120]

/-- Trailer-less archive (32 bytes) with one local header whose name is the
two bytes `d/`. -/
def fbDirBuf : Buf :=
  [0x50, 0x4B, 0x03, 0x04] ++ List.replicate 22 0 ++ [2, 0] ++ [0, 0] ++
  [100, 47]

/-- A bare 22-byte EOCD record. -/
def eocdBuf : Buf :=
  [0x50, 0x4B, 0x05, 0x06] ++ List.replicate 18 0

end Unzip

namespace Unzip

theorem scanCount_eq_some (b : Buf) :
    ∀ n i p, scanCount b i n = some p →
      eocdSigAt b p = true ∧ p ≤ i ∧ i < p + n ∧
      ∀ j, p < j → j ≤ i → eocdSigAt b j = false := by
  intro n
  induction n with
  | zero => intro i p h; simp [scanCount] at h
  | succ n ih =>
    intro i p h
    simp only [scanCount] at h
    by_cases hs : eocdSigAt b i
    · rw [if_pos hs] at h
      obtain rfl : i = p := by injection h
      exact ⟨hs, le_refl _, by omega, fun j h1 h2 => absurd (by omega : i < i) (by omega)⟩
    · rw [if_neg hs] at h
      obtain ⟨h1, h2, h3, h4⟩ := ih (i-1) p h
      simp only [Bool.not_eq_true] at hs
      refine ⟨h1, by omega, by omega, ?_⟩
      intro j hj1 hj2
      by_cases hji : j = i
      · subst hji; exact hs
      · exact h4 j hj1 (by omega)

theorem scanCount_complete (b : Buf) :
    ∀ n i j, j ≤ i → i < j + n → eocdSigAt b j = true →
      ∃ p, scanCount b i n = some p ∧ j ≤ p := by
  intro n
  induction n with
  | zero => intro i j h1 h2 _; omega
  | succ n ih =>
    intro i j h1 h2 hsig
    simp only [scanCount]
    by_cases hs : eocdSigAt b i
    · exact ⟨i, by rw [if_pos hs], h1⟩
    · rw [if_neg hs]
      have hji : j ≠ i := fun he => hs (he ▸ hsig)
      exact ih (i-1) j (by omega) (by omega) hsig

theorem sigSearch_le (b : Buf) :
    ∀ k i p, sigSearch b i k = some p → i ≤ p := by
  intro k
  induction k with
  | zero => intro i p h; simp [sigSearch] at h
  | succ k ih =>
    intro i p h
    simp only [sigSearch] at h
    by_cases hs : localSigAt b i
    · rw [if_pos hs] at h; injection h with h; omega
    · rw [if_neg hs] at h; have := ih (i+1) p h; omega

theorem cdLoop_skip_none (b : Buf) (cdEnd c : Nat)
    (hstep : cdStepF b c = CdStep.skip) (hc : c < cdEnd) :
    ∀ fuel acc, cdLoop b cdEnd fuel c acc = none := by
  intro fuel
  induction fuel with
  | zero => intro acc; rfl
  | succ n ih =>
    intro acc
    simp only [cdLoop, hstep, hc, if_true]
    exact ih acc

theorem cdStepF_push_inv (b : Buf) (c : Nat) (e : ZEntry) (c' : Nat)
    (h : cdStepF b c = CdStep.push e c') :
    e.isDirectory = endsWithSlash e.entryName ∧
    ∃ cs, e.data = bufSlice b e.viewStart (e.viewStart + cs) := by
  unfold cdStepF at h
  repeat' split at h
  all_goals first
    | exact CdStep.noConfusion h
    | (injection h with h1 h2; subst h1; exact ⟨rfl, _, rfl⟩)

theorem fbStep_some_inv (b : Buf) (p : Nat) (e : ZEntry) (nx : Nat)
    (h : fbStep b p = some (e, nx)) :
    e.isDirectory = endsWithSlash e.entryName ∧
    ∃ nl el cs, e.viewStart = p + 30 + nl + el ∧
      e.data = bufSlice b e.viewStart (e.viewStart + cs) ∧ nx = e.viewStart + cs := by
  unfold fbStep at h
  repeat' split at h
  all_goals first
    | exact Option.noConfusion h
    | (injection h with h1; injection h1 with h1 h2; subst h1; subst h2;
       exact ⟨rfl, _, _, _, rfl, rfl, rfl⟩)

theorem bufSlice_length_le (b : Buf) (s t : Nat) :
    (bufSlice b s t).length ≤ b.length - s := by
  simp only [bufSlice, List.length_take, List.length_drop]
  omega

theorem cdLoop_mem (b : Buf) (cdEnd : Nat) (P : ZEntry → Prop)
    (hstep : ∀ c e c', cdStepF b c = CdStep.push e c' → P e) :
    ∀ fuel c acc res, (∀ e ∈ acc, P e) →
      cdLoop b cdEnd fuel c acc = some (Except.ok res) → ∀ e ∈ res, P e := by
  intro fuel
  induction fuel with
  | zero => intro c acc res hacc h; simp [cdLoop] at h
  | succ n ih =>
    intro c acc res hacc h
    simp only [cdLoop] at h
    by_cases hc : c < cdEnd
    · rw [if_pos hc] at h
      cases hcd : cdStepF b c with
      | err => rw [hcd] at h; simp at h
      | stop =>
        rw [hcd] at h
        simp only [Option.some.injEq, Except.ok.injEq] at h
        subst h
        intro e he
        exact hacc e (List.mem_reverse.mp he)
      | skip => rw [hcd] at h; exact ih c acc res hacc h
      | push e' c' =>
        rw [hcd] at h
        refine ih c' (e' :: acc) res ?_ h
        intro x hx
        rcases List.mem_cons.mp hx with rfl | hx'
        · exact hstep c x c' hcd
        · exact hacc x hx'
    · rw [if_neg hc] at h
      simp only [Option.some.injEq, Except.ok.injEq] at h
      subst h
      intro e he
      exact hacc e (List.mem_reverse.mp he)

theorem fbLoop_mem (b : Buf) (P : ZEntry → Prop)
    (hstep : ∀ p e nx, fbStep b p = some (e, nx) → P e) :
    ∀ fuel cur acc res, (∀ e ∈ acc, P e) →
      fbLoop b fuel cur acc = some (Except.ok res) → ∀ e ∈ res, P e := by
  intro fuel
  induction fuel with
  | zero => intro cur acc res hacc h; simp [fbLoop] at h
  | succ n ih =>
    intro cur acc res hacc h
    simp only [fbLoop] at h
    by_cases hc : cur < b.length - 4
    · rw [if_pos hc] at h
      split at h
      · simp only [Option.some.injEq, Except.ok.injEq] at h
        subst h
        intro e he
        exact hacc e (List.mem_reverse.mp he)
      · next p hidx =>
        split at h
        · simp at h
        · next e' nx hst =>
          refine ih nx (e' :: acc) res ?_ h
          intro x hx
          rcases List.mem_cons.mp hx with rfl | hx'
          · exact hstep p x nx hst
          · exact hacc x hx'
    · rw [if_neg hc] at h
      simp only [Option.some.injEq, Except.ok.injEq] at h
      subst h
      intro e he
      exact hacc e (List.mem_reverse.mp he)

theorem buildEntries_mem (b : Buf) (P : ZEntry → Prop)
    (hcd : ∀ c e c', cdStepF b c = CdStep.push e c' → P e)
    (hfb : ∀ p e nx, fbStep b p = some (e, nx) → P e) :
    ∀ fuel res, buildEntries fuel b = some (Except.ok res) → ∀ e ∈ res, P e := by
  intro fuel res h
  unfold buildEntries at h
  split at h
  · split at h
    · next cdOff cdSize h16 h12 =>
      exact cdLoop_mem b (cdOff + cdSize) P hcd fuel cdOff [] res (by simp) h
    · simp at h
  · exact fbLoop_mem b P hfb fuel 0 [] res (by simp) h

theorem fbLoop_chain (b : Buf) :
    ∀ fuel cur acc res, fbLoop b fuel cur acc = some (Except.ok res) →
      ∃ tail, res = acc.reverse ++ tail ∧ List.Chain' viewLt tail ∧
        ∀ e ∈ tail, cur + 30 ≤ e.viewStart := by
  intro fuel
  induction fuel with
  | zero => intro cur acc res h; simp [fbLoop] at h
  | succ n ih =>
    intro cur acc res h
    simp only [fbLoop] at h
    by_cases hc : cur < b.length - 4
    · rw [if_pos hc] at h
      split at h
      · simp only [Option.some.injEq, Except.ok.injEq] at h
        exact ⟨[], by simp [h.symm], List.chain'_nil, by simp⟩
      · next p hidx =>
        split at h
        · simp at h
        · next e nx hst =>
          obtain ⟨tail', hres, hch, hge⟩ := ih nx (e :: acc) res h
          obtain ⟨-, nl, el, cs, hview, -, hnx⟩ := fbStep_some_inv b p e nx hst
          have hpc : cur ≤ p := sigSearch_le b (b.length - cur) cur p hidx
          refine ⟨e :: tail', ?_, ?_, ?_⟩
          · rw [hres]; simp
          · cases tail' with
            | nil => simp
            | cons f t =>
              rw [List.chain'_cons]
              refine ⟨?_, hch⟩
              have hf := hge f (by simp)
              simp only [viewLt]
              omega
          · intro x hx
            rcases List.mem_cons.mp hx with rfl | hx'
            · omega
            · have := hge x hx'; omega
    · rw [if_neg hc] at h
      simp only [Option.some.injEq, Except.ok.injEq] at h
      exact ⟨[], by simp [h.symm], List.chain'_nil, by simp⟩

end Unzip

namespace Unzip

/-- C1: the claim states that a directory record whose referenced local header
does not begin with `50 4B 03 04` is skipped and parsing continues with the
subsequent records.  The code instead executes `continue` without advancing
`cdCursor`, so the constructor re-reads the same record forever: on `c1Buf`
(bad first record, fully valid second record) construction diverges for every
fuel, and in particular the valid second record — which parses into an entry
in isolation, as the second conjunct shows — is never returned. -/
theorem c1_bad_local_header_loops :
    (∀ fuel, buildEntries fuel c1Buf = none) ∧
    cdStepF c1Buf 80 = CdStep.push
      { entryName := [], isDirectory := false, method := 0,
        viewStart := 34, data := [] } 126 := by
  constructor
  · intro fuel
    show cdLoop c1Buf 126 fuel 34 [] = none
    exact cdLoop_skip_none c1Buf 126 34 rfl (by omega) fuel []
  · rfl

/-- C2: the claim states that archive construction terminates for every input
buffer.  It does not: on `c2Buf`, whose single directory record references a
local header that does not begin with `50 4B 03 04`, the `continue` in the
directory walk never advances the cursor and the constructor loops forever
(the walk is still running after any amount of fuel). -/
theorem c2_construction_nonterminating :
    ∀ fuel, buildEntries fuel c2Buf = none := by
  intro fuel
  show cdLoop c2Buf 50 fuel 4 [] = none
  exact cdLoop_skip_none c2Buf 50 4 rfl (by omega) fuel []

/-- C3 counterexample: on `c3Buf` the directory record claims a compressed
size of 100 (`readU32 c3Buf 50 = some 100`) for a payload starting at 30 in a
98-byte buffer, so the claimed view `[30, 130)` exceeds the bounds — yet an
entry IS produced (with view start 30 and actual view length 68, clamped by
`slice`), refuting "any header claiming a view beyond the bounds yields no
entry". -/
theorem c3_entry_despite_oob_view :
    entryViews (buildEntries 2 c3Buf) = [(30, 68)] ∧
    readU32 c3Buf 50 = some 100 ∧ c3Buf.length = 98 :=
  ⟨rfl, rfl, rfl⟩

/-- C3 (amended): every produced entry's actual byte view lies within the
archive bounds because `slice` clamps its end to the buffer: for every entry
of a completed construction, the captured view has at most
`length - viewStart` bytes.  (A header claiming more still yields an entry;
the view is truncated rather than the record skipped.) -/
theorem c3_view_clamped_in_bounds (b : Buf) (fuel : Nat) (res : List ZEntry)
    (e : ZEntry) (h : buildEntries fuel b = some (Except.ok res)) (he : e ∈ res) :
    e.data.length ≤ b.length - e.viewStart := by
  refine buildEntries_mem b (fun e => e.data.length ≤ b.length - e.viewStart)
    ?_ ?_ fuel res h e he
  · intro c e' c' hp
    obtain ⟨-, cs, hd⟩ := cdStepF_push_inv b c e' c' hp
    rw [hd]
    exact bufSlice_length_le b _ _
  · intro p e' nx hp
    obtain ⟨-, nl, el, cs, -, hd, -⟩ := fbStep_some_inv b p e' nx hp
    rw [hd]
    exact bufSlice_length_le b _ _

/-- Witness for the amended C3 theorem at a concrete one-entry archive. -/
theorem c3_view_clamped_in_bounds_witness :
    ({ entryName := [], isDirectory := false, method := 0,
       viewStart := 30, data := [] } : ZEntry).data.length ≤ cdOkBuf.length - 30 :=
  c3_view_clamped_in_bounds cdOkBuf 2
    [{ entryName := [], isDirectory := false, method := 0, viewStart := 30, data := [] }]
    { entryName := [], isDirectory := false, method := 0, viewStart := 30, data := [] }
    rfl (List.mem_singleton.mpr rfl)

/-- C4: an entry whose compression method is neither 0 nor 8 enumerates
normally — on `buf99` (method code 99) construction succeeds and the entry is
in the list — and only `getData` fails, with an error carrying the method
code; nothing in the parse inspects the method. -/
theorem c4_unsupported_method_lazy_error :
    (∀ (inflateRawSync : Buf → Buf) (e : ZEntry), e.method ≠ 0 → e.method ≠ 8 →
       getData inflateRawSync e = Except.error e.method) ∧
    buildEntries 2 buf99 = some (Except.ok
      [{ entryName := [120], isDirectory := false, method := 99,
         viewStart := 31, data := [] }]) := by
  constructor
  · intro f e h0 h8
    unfold getData
    rw [if_neg h8, if_neg h0]
  · rfl

/-- Witness for C4 at the concrete method-99 entry of `buf99`. -/
theorem c4_unsupported_method_lazy_error_witness :
    getData id { entryName := [120], isDirectory := false, method := 99,
                 viewStart := 31, data := [] } = Except.error 99 :=
  c4_unsupported_method_lazy_error.1 id
    { entryName := [120], isDirectory := false, method := 99, viewStart := 31, data := [] }
    (by decide) (by decide)

/-- C5: the EOCD locator returns a position only if it carries the signature,
lies in the window `[length - 65557, length - 22]`, and no later position of
the window carries the signature (nearest to end); an EOCD whose signature
sits at `length - 22 - L` for a trailing comment of length `L ≤ 65535` is
always located (the scan returns a match at or after it); and when no match
exists construction proceeds with the fallback scanner, not an error. -/
theorem c5_eocd_scan_window (b : Buf) :
    (∀ i, eocdScan b = some i →
       eocdSigAt b i = true ∧ b.length - 65557 ≤ i ∧ i ≤ b.length - 22 ∧
       ∀ j, i < j → j ≤ b.length - 22 → eocdSigAt b j = false) ∧
    (∀ p L, L ≤ 65535 → p + 22 + L = b.length → eocdSigAt b p = true →
       ∃ i, eocdScan b = some i ∧ p ≤ i) ∧
    (∀ fuel, eocdScan b = none → buildEntries fuel b = fbLoop b fuel 0 []) := by
  refine ⟨?_, ?_, ?_⟩
  · intro i h
    unfold eocdScan at h
    by_cases h22 : b.length < 22
    · rw [if_pos h22] at h
      exact absurd h (by simp)
    · rw [if_neg h22] at h
      obtain ⟨h1, h2, h3, h4⟩ := scanCount_eq_some b _ _ _ h
      refine ⟨h1, by omega, h2, ?_⟩
      intro j hj1 hj2
      exact h4 j hj1 hj2
  · intro p L hL hlen hsig
    have h22 : ¬ b.length < 22 := by omega
    obtain ⟨q, hq, hpq⟩ := scanCount_complete b
      ((b.length - 22) - (b.length - 65557) + 1) (b.length - 22) p
      (by omega) (by omega) hsig
    refine ⟨q, ?_, hpq⟩
    unfold eocdScan
    rw [if_neg h22]
    exact hq
  · intro fuel h
    unfold buildEntries
    rw [h]

/-- Witness for C5 at a bare 22-byte EOCD record located at position 0. -/
theorem c5_eocd_scan_window_witness : eocdSigAt eocdBuf 0 = true :=
  ((c5_eocd_scan_window eocdBuf).1 0 (by decide)).1

/-- C6: `getData` on a Stored entry (method 0) returns the captured view
bytes unchanged, and on a Deflated entry (method 8) returns exactly the
result of the raw (headerless) inflate primitive — the abstracted
`zlib.inflateRawSync`, the wrapperless variant — applied to the view bytes. -/
theorem c6_getData_dispatch (inflateRawSync : Buf → Buf) (e : ZEntry) :
    (e.method = 0 → getData inflateRawSync e = Except.ok e.data) ∧
    (e.method = 8 → getData inflateRawSync e = Except.ok (inflateRawSync e.data)) := by
  constructor
  · intro h0
    unfold getData
    rw [if_neg (by omega), if_pos h0]
  · intro h8
    unfold getData
    rw [if_pos h8]

/-- Witness for C6 at concrete stored and deflated entries. -/
theorem c6_getData_dispatch_witness :
    getData List.reverse { entryName := [], isDirectory := false, method := 0,
                           viewStart := 0, data := [1, 2] } = Except.ok [1, 2] ∧
    getData List.reverse { entryName := [], isDirectory := false, method := 8,
                           viewStart := 0, data := [1, 2] } = Except.ok [2, 1] :=
  ⟨(c6_getData_dispatch List.reverse
      { entryName := [], isDirectory := false, method := 0, viewStart := 0, data := [1, 2] }).1 rfl,
   (c6_getData_dispatch List.reverse
      { entryName := [], isDirectory := false, method := 8, viewStart := 0, data := [1, 2] }).2 rfl⟩

/-- C7: in fallback mode, a local-header match at `p` yields the entry whose
payload starts at `p + 30 + nameLen + extraLen` with view
`[payloadStart, payloadStart + compressedSize)`, and the loop resumes the
signature search at `payloadStart + compressedSize` (payload bytes are never
scanned); moreover the entries of a completed fallback parse are in strictly
increasing view-start order, i.e. file order. -/
theorem c7_fallback_step_layout :
    (∀ (b : Buf) (fuel cur : Nat) (acc : List ZEntry) (p m cs us nl el : Nat),
       cur < b.length - 4 →
       indexOfFrom b cur = some p →
       readU16 b (p+8) = some m → readU32 b (p+18) = some cs →
       readU32 b (p+22) = some us → readU16 b (p+26) = some nl →
       readU16 b (p+28) = some el →
       fbLoop b (fuel+1) cur acc =
         fbLoop b fuel (p + 30 + nl + el + cs)
           ({ entryName := bufSlice b (p+30) (p+30+nl),
              isDirectory := endsWithSlash (bufSlice b (p+30) (p+30+nl)),
              method := m,
              viewStart := p + 30 + nl + el,
              data := bufSlice b (p + 30 + nl + el) (p + 30 + nl + el + cs) } :: acc)) ∧
    (∀ (b : Buf) (fuel : Nat) (res : List ZEntry),
       eocdScan b = none → buildEntries fuel b = some (Except.ok res) →
       List.Chain' viewLt res) := by
  constructor
  · intro b fuel cur acc p m cs us nl el hc hidx hm hcs hus hnl hel
    have hstep : fbStep b p =
        some ({ entryName := bufSlice b (p+30) (p+30+nl),
                isDirectory := endsWithSlash (bufSlice b (p+30) (p+30+nl)),
                method := m,
                viewStart := p + 30 + nl + el,
                data := bufSlice b (p + 30 + nl + el) (p + 30 + nl + el + cs) },
              p + 30 + nl + el + cs) := by
      unfold fbStep
      rw [hm, hcs, hus, hnl, hel]
    simp only [fbLoop, hc, if_true, hidx, hstep]
  · intro b fuel res heo h
    unfold buildEntries at h
    rw [heo] at h
    obtain ⟨tail, hres, hch, -⟩ := fbLoop_chain b fuel 0 [] res h
    simpa [hres] using hch

/-- Witness for C7 at the concrete fallback archive `buf99`. -/
theorem c7_fallback_step_layout_witness :
    fbLoop buf99 2 0 [] =
      fbLoop buf99 1 31
        [{ entryName := [120], isDirectory := false, method := 99,
           viewStart := 31, data := [] }] :=
  c7_fallback_step_layout.1 buf99 1 0 [] 0 99 0 0 1 0
    (by decide) rfl rfl rfl rfl rfl rfl

/-- C8: in the directory path, a surviving record at cursor `c` produces the
entry whose payload starts at `relativeOffset + 30 + lfNameLen + lfExtraLen`,
computed from the local header's own name-length and extra-field-length
fields (read at `relativeOffset + 26` and `relativeOffset + 28`), while the
view is `[payloadStart, payloadStart + compressedSize)` with the directory
record's compressed size (read at `c + 20`); the cursor advances by
`46 + nameLen + extraLen + commentLen` using the directory's own copies. -/
theorem c8_directory_payload_start (b : Buf) (c m cs us nl el cl ro lfN lfE : Nat)
    (h0 : readU32 b c = some 0x02014b50)
    (h1 : readU16 b (c+10) = some m) (h2 : readU32 b (c+20) = some cs)
    (h3 : readU32 b (c+24) = some us) (h4 : readU16 b (c+28) = some nl)
    (h5 : readU16 b (c+30) = some el) (h6 : readU16 b (c+32) = some cl)
    (h7 : readU32 b (c+42) = some ro) (h8 : readU32 b ro = some 0x04034b50)
    (h9 : readU16 b (ro+26) = some lfN) (h10 : readU16 b (ro+28) = some lfE) :
    cdStepF b c = CdStep.push
      { entryName := bufSlice b (c+46) (c+46+nl),
        isDirectory := endsWithSlash (bufSlice b (c+46) (c+46+nl)),
        method := m,
        viewStart := ro + 30 + lfN + lfE,
        data := bufSlice b (ro + 30 + lfN + lfE) (ro + 30 + lfN + lfE + cs) }
      (c + 46 + nl + el + cl) := by
  unfold cdStepF
  rw [h0]
  simp [h1, h2, h3, h4, h5, h6, h7, h8, h9, h10]

/-- Witness for C8 at the concrete one-entry archive `cdOkBuf`. -/
theorem c8_directory_payload_start_witness :
    cdStepF cdOkBuf 30 = CdStep.push
      { entryName := [], isDirectory := false, method := 0,
        viewStart := 30, data := [] } 76 :=
  c8_directory_payload_start cdOkBuf 30 0 0 0 0 0 0 0 0 0
    rfl rfl rfl rfl rfl rfl rfl rfl rfl rfl rfl

/-- C9: every entry produced by either discovery path has
`isDirectory = true` exactly when its decoded name ends with `/` (on raw
bytes: the last byte is `0x2F`, which is equivalent for UTF-8 decoding since
`/` is a single-byte code point). -/
theorem c9_isDirectory_iff_trailing_slash (b : Buf) (fuel : Nat)
    (res : List ZEntry) (e : ZEntry)
    (h : buildEntries fuel b = some (Except.ok res)) (he : e ∈ res) :
    e.isDirectory = endsWithSlash e.entryName :=
  buildEntries_mem b (fun e => e.isDirectory = endsWithSlash e.entryName)
    (fun c e' c' hp => (cdStepF_push_inv b c e' c' hp).1)
    (fun p e' nx hp => (fbStep_some_inv b p e' nx hp).1)
    fuel res h e he

/-- Witness for C9 at the concrete archive `fbDirBuf` whose entry is named
`d/`. -/
theorem c9_isDirectory_iff_trailing_slash_witness :
    ({ entryName := [100, 47], isDirectory := true, method := 0,
       viewStart := 32, data := [] } : ZEntry).isDirectory = endsWithSlash [100, 47] :=
  c9_isDirectory_iff_trailing_slash fbDirBuf 2
    [{ entryName := [100, 47], isDirectory := true, method := 0, viewStart := 32, data := [] }]
    { entryName := [100, 47], isDirectory := true, method := 0, viewStart := 32, data := [] }
    rfl (List.mem_singleton.mpr rfl)

/-- C10: when no EOCD signature is located and no local-header signature
occurs, construction succeeds and `getEntries` returns the empty list; in
particular every buffer of length at most 4 (the fallback loop condition
`currentOffset < length - 4` is immediately false) yields an empty archive. -/
theorem c10_empty_archive_ok :
    (∀ (b : Buf) (fuel : Nat), eocdScan b = none → indexOfFrom b 0 = none →
       1 ≤ fuel → mkUnzipper fuel b = some (Except.ok (Unzipper.mk []))) ∧
    (∀ (b : Buf) (fuel : Nat), b.length ≤ 4 → 1 ≤ fuel →
       mkUnzipper fuel b = some (Except.ok (Unzipper.mk []))) ∧
    Unzipper.getEntries (Unzipper.mk []) = [] := by
  refine ⟨?_, ?_, rfl⟩
  · intro b fuel heo hidx hfuel
    obtain ⟨n, rfl⟩ : ∃ n, fuel = n + 1 := ⟨fuel - 1, by omega⟩
    unfold mkUnzipper buildEntries
    rw [heo]
    simp only [fbLoop]
    by_cases hc : 0 < b.length - 4
    · rw [if_pos hc, hidx]
      rfl
    · rw [if_neg hc]
      rfl
  · intro b fuel hlen hfuel
    obtain ⟨n, rfl⟩ : ∃ n, fuel = n + 1 := ⟨fuel - 1, by omega⟩
    have heo : eocdScan b = none := by
      unfold eocdScan
      rw [if_pos (by omega)]
    unfold mkUnzipper buildEntries
    rw [heo]
    simp only [fbLoop]
    rw [if_neg (by omega)]
    rfl

/-- Witness for C10 at the empty buffer. -/
theorem c10_empty_archive_ok_witness :
    mkUnzipper 1 [] = some (Except.ok (Unzipper.mk [])) :=
  c10_empty_archive_ok.2.1 [] 1 (by decide) (by decide)

end Unzip
